import Mathlib

/-!
# Intel GPU collector: line parser and sample supervisor

A shallow embedding of `collect.go` and `exec.go` of the `intelgpu` collector.

Conventions of the embedding.

* A Go `string` is a Lean `String` (a sequence of Unicode scalar values); the
  input is taken to be well-formed UTF-8.
* Go's `error` is `Option String`: `none` is `nil`, `some msg` is an error whose
  `Error()` text is `msg`.
* `float64` is an abstract type `F`, and `strconv.ParseFloat(s, 64)` is a
  parameter `parseFloat : String → Except String F`; the error text is what
  `%v` prints for the returned error.
* A function that mutates its receiver or a pointer argument returns the new
  value next to its result.
-/

namespace strings

/-- The fields of a character sequence cut at every occurrence of `sep`:
always one more field than there are separators. -/
def splitChars (sep : Char) : List Char → List (List Char)
  | [] => [[]]
  | c :: cs =>
    if c = sep then [] :: splitChars sep cs
    else
      match splitChars sep cs with
      | [] => [[c]]
      | f :: fs => (c :: f) :: fs

/-- Go `strings.Split(s, sep)` for a one-character separator. -/
def Split (s : String) (sep : Char) : List String :=
  (splitChars sep s.data).map String.mk

/-- Go `strings.Contains(s, substr)` for a one-character `substr`. -/
def Contains (s : String) (c : Char) : Bool :=
  s.data.contains c

/-- Go `unicode.IsSpace`: the code points with the White_Space property. -/
def isSpace (c : Char) : Bool :=
  let n := c.toNat
  n = 0x20 || (0x09 ≤ n && n ≤ 0x0D) || n = 0x85 || n = 0xA0 || n = 0x1680 ||
    (0x2000 ≤ n && n ≤ 0x200A) || n = 0x2028 || n = 0x2029 || n = 0x202F ||
    n = 0x205F || n = 0x3000

/-- Go `strings.TrimSpace`: drop leading and trailing white space. -/
def TrimSpace (s : String) : String :=
  String.mk ((s.data.dropWhile isSpace).reverse.dropWhile isSpace).reverse

end strings

namespace intelgpu

/-- The `Frequency` member of `gpuSummaryStats`. -/
structure FrequencyStats (F : Type) where
  Actual : F
  deriving DecidableEq, Repr

/-- The `Power` member of `gpuSummaryStats`. -/
structure PowerStats (F : Type) where
  GPU : F
  deriving DecidableEq, Repr

/-- The `Memory` member of `gpuSummaryStats`. -/
structure MemoryStats (F : Type) where
  Actual : F
  Utilization : F
  deriving DecidableEq, Repr

/-- The record `gpuSummaryStats` of `collect.go`. -/
structure gpuSummaryStats (F : Type) where
  Frequency : FrequencyStats F
  Power : PowerStats F
  Memory : MemoryStats F
  deriving DecidableEq, Repr

/-- The list index `fields[i]` of a slice known to be long enough; the empty
string stands for an index out of range, which `parseStatsLine` never reaches
behind its length check. -/
def field (fields : List String) (i : Nat) : String :=
  fields.getD i ""

/-- The function `parseStatsLine(bytes, stats)` of `collect.go`: the record
behind the pointer `stats` after the call, and the returned error. -/
def parseStatsLine {F : Type} (parseFloat : String → Except String F)
    (bytes : String) (stats : gpuSummaryStats F) : gpuSummaryStats F × Option String :=
  let line := bytes
  let fields := strings.Split line ','
  if fields.length ≠ 6 then
    (stats, some ("invalid number of fields in line: " ++ line))
  else
    let fields := fields.map strings.TrimSpace
    match parseFloat (field fields 5) with
    | .error err => (stats, some ("failed to parse memory actual: " ++ err))
    | .ok memoryActual =>
      match parseFloat (field fields 4) with
      | .error err => (stats, some ("failed to parse memory utilization: " ++ err))
      | .ok memoryUtilization =>
        match parseFloat (field fields 2) with
        | .error err => (stats, some ("failed to parse power: " ++ err))
        | .ok power =>
          match parseFloat (field fields 3) with
          | .error err => (stats, some ("failed to parse frequency: " ++ err))
          | .ok frequency =>
            ({ Frequency := { Actual := frequency }
               Power := { GPU := power }
               Memory := { Actual := memoryActual, Utilization := memoryUtilization } },
             none)

/-- An exact decimal number `mantissa / 10 ^ scale`. -/
structure Decimal where
  mantissa : Nat
  scale : Nat
  deriving DecidableEq, Repr

/-- The value of a run of decimal digits. -/
def digitsValue (ds : List Char) : Nat :=
  ds.foldl (fun acc c => 10 * acc + (c.toNat - 48)) 0

/-- The text `strconv.ParseFloat` reports for an input it cannot convert. -/
def syntaxError (s : String) : String :=
  "strconv.ParseFloat: parsing \"" ++ s ++ "\": invalid syntax"

/-- A concrete converter for plain decimal literals (`digits` or
`digits.digits`), exact; it instantiates the `parseFloat` parameter where a
theorem is evaluated at a concrete line. -/
def parseDecimal (s : String) : Except String Decimal :=
  match strings.splitChars '.' s.data with
  | [ip] =>
    if ip ≠ [] ∧ ip.all Char.isDigit then .ok ⟨digitsValue ip, 0⟩
    else .error (syntaxError s)
  | [ip, fp] =>
    if ip ≠ [] ∧ fp ≠ [] ∧ ip.all Char.isDigit ∧ fp.all Char.isDigit then
      .ok ⟨digitsValue (ip ++ fp), fp.length⟩
    else .error (syntaxError s)
  | _ => .error (syntaxError s)

/-- The zero value of the stand-in number type. -/
def Decimal.zero : Decimal := ⟨0, 0⟩

/-- The zero value of `gpuSummaryStats` over the stand-in number type. -/
def zeroStats : gpuSummaryStats Decimal :=
  ⟨⟨Decimal.zero⟩, ⟨Decimal.zero⟩, ⟨Decimal.zero, Decimal.zero⟩⟩

/-! ## The supervisor of `exec.go` -/

/-- A channel of type `chan struct{}` on which nothing is ever sent: all that
matters is whether it is the nil channel, an open one, or a closed one. A
receive is ready on a closed channel only. -/
inductive Chan where
  | nilChan
  | opened
  | closed
  deriving DecidableEq, Repr

/-- The part of `exec.Cmd` the supervisor looks at: `Process` is `nil` until
the command has been started and then holds the process id. -/
structure Cmd where
  Process : Option Nat
  deriving DecidableEq, Repr

/-- The struct `intelGpuTopExec` (without the logger and the mutex, which
guards every access to `lastSample`). `firstSampleTimeout` is a
`time.Duration`, counted in nanoseconds. -/
structure intelGpuTopExec where
  ndsudoPath : String
  updateEvery : Int
  device : String
  firstSampleTimeout : Int
  cmd : Option Cmd
  done : Chan
  lastSample : String
  deriving DecidableEq, Repr

/-- Where the goroutine started by `run` stands: before the header `Scan`,
inside the `for sc.Scan()` loop, or returned. -/
inductive Phase where
  | header
  | loop
  | exited
  deriving DecidableEq, Repr

/-- The locals of the goroutine started by `run`: the counter `n`, whether the
one-slot buffered channel `firstSample` holds a value, and (a ghost field) the
values assigned to `lastSample` so far, oldest first. -/
structure ReadLoop where
  phase : Phase
  n : Nat
  firstSample : Bool
  stored : List String
  deriving DecidableEq, Repr

/-- A supervisor together with its background goroutine. -/
structure Supervisor where
  e : intelGpuTopExec
  g : ReadLoop
  deriving DecidableEq, Repr

/-- The deferred `close(done)` that ends the goroutine. -/
def closeDone (w : Supervisor) : Supervisor :=
  { e := { w.e with done := Chan.closed }, g := { w.g with phase := Phase.exited } }

/-- One call of `sc.Scan()` by the goroutine and what follows it up to the next
call: `some text` is a call that returns true with token `text`, `none` a call
that returns false (end of stream or a read error). -/
def scan (tok : Option String) (w : Supervisor) : Supervisor :=
  match w.g.phase with
  | Phase.exited => w
  | Phase.header =>
    match tok with
    | none => closeDone w
    | some text =>
      if !strings.Contains text ':' then
        -- Skip the header
        { w with g := { w.g with phase := Phase.loop } }
      else
        { w with g := { w.g with phase := Phase.loop } }
  | Phase.loop =>
    match tok with
    | none => closeDone w
    | some text =>
      let n := w.g.n + 1
      if n > 1000 then
        closeDone { w with g := { w.g with n := n } }
      else if text = "" then
        { w with g := { w.g with n := n } }
      else if !strings.Contains text ',' then
        { w with g := { w.g with n := n } }
      else
        { e := { w.e with lastSample := text }
          g := { w.g with n := n, firstSample := true, stored := w.g.stored ++ [text] } }

/-- The goroutine working through a sequence of `Scan` results. -/
def feed (w : Supervisor) (toks : List (Option String)) : Supervisor :=
  toks.foldl (fun acc tok => scan tok acc) w

/-- The goroutine reading output lines, none of them the end of the stream. -/
def feedLines (w : Supervisor) (lines : List String) : Supervisor :=
  feed w (lines.map some)

/-- The two guards of the loop body: a line is stored when it is not empty and
contains a comma. -/
def accepted (text : String) : Bool :=
  text ≠ "" && strings.Contains text ','

/-- The method `queryGPUSummaryJson`: the receiver after the call, the bytes
and the error. -/
def queryGPUSummaryJson (e : intelGpuTopExec) :
    intelGpuTopExec × Option String × Option String :=
  match e.done with
  | Chan.closed => (e, none, some "process has already exited")
  | _ => (e, some e.lastSample, none)

/-- What `stop` does to the child process. -/
inductive ProcAction where
  | Kill (pid : Nat)
  | Wait (pid : Nat)
  deriving DecidableEq, Repr

/-- The method `stop`: the supervisor after the call, the error, and the
actions on the child process. `during` is what the goroutine gets from `Scan`
while `stop` waits on `done`, for two seconds at most: the wait ends well when
`done` is closed by then and with the timeout error otherwise. -/
def stop (during : List (Option String)) (w : Supervisor) :
    Supervisor × Option String × List ProcAction :=
  match w.e.cmd with
  | none => (w, none, [])
  | some cmd =>
    match cmd.Process with
    | none => (w, none, [])
    | some pid =>
      let w1 : Supervisor := { w with e := { w.e with cmd := none } }
      let w2 := feed w1 during
      match w2.e.done with
      | Chan.closed => (w2, none, [ProcAction.Kill pid, ProcAction.Wait pid])
      | _ => (w2, some "timed out waiting for process to exit",
          [ProcAction.Kill pid, ProcAction.Wait pid])

/-- The three cases of the `select` that ends `run`. -/
inductive SelectCase where
  | done
  | timeout
  | firstSample
  deriving DecidableEq, Repr

/-- What the surroundings contribute to one call of `run`: the results of
`cmd.StdoutPipe()` and `cmd.Start()`, the process id, the `Scan` results the
goroutine gets before the `select` fires, the case the `select` takes when
that case is ready (the timer ends the wait otherwise), and the `Scan` results
during the `stop` of the two failure branches. -/
structure RunEnv where
  pipeErr : Option String
  startErr : Option String
  pid : Nat
  before : List (Option String)
  choice : SelectCase
  during : List (Option String)
  deriving DecidableEq, Repr

/-- The method `run`: the supervisor after the call and the error. -/
def run (env : RunEnv) (w : Supervisor) : Supervisor × Option String :=
  match env.pipeErr with
  | some err => (w, some err)
  | none =>
    match env.startErr with
    | some err => (w, some err)
    | none =>
      let w0 : Supervisor :=
        { e := { w.e with cmd := some ⟨some env.pid⟩, done := Chan.opened }
          g := { phase := Phase.header, n := 0, firstSample := false, stored := [] } }
      let w1 := feed w0 env.before
      if env.choice = SelectCase.done ∧ w1.e.done = Chan.closed then
        ((stop env.during w1).1, some "process exited before the first sample was collected")
      else if env.choice = SelectCase.firstSample ∧ w1.g.firstSample = true then
        ({ w1 with g := { w1.g with firstSample := false } }, none)
      else
        ((stop env.during w1).1, some "timed out waiting for first sample")

/-- One second as a `time.Duration`. -/
def Second : Int := 1000000000

/-- The constructor `newIntelGpuTopExec`: the supervisor, or `nil`, and the
error. -/
def newIntelGpuTopExec (env : RunEnv) (ndsudoPath : String) (updateEvery : Int)
    (device : String) : Option Supervisor × Option String :=
  let topExec : intelGpuTopExec :=
    { ndsudoPath := ndsudoPath
      updateEvery := updateEvery
      device := device
      firstSampleTimeout := Second * 3
      cmd := none
      done := Chan.nilChan
      lastSample := "" }
  match run env { e := topExec, g := { phase := Phase.exited, n := 0, firstSample := false, stored := [] } } with
  | (_, some err) => (none, some err)
  | (w, none) => (some w, none)

/-- What can happen to a constructed supervisor: the goroutine gets one more
`Scan` result, or a caller calls `stop` or `queryGPUSummaryJson`. -/
inductive Op where
  | scan (tok : Option String)
  | stop (during : List (Option String))
  | query
  deriving DecidableEq, Repr

/-- The supervisor after one operation. -/
def Op.apply (w : Supervisor) : Op → Supervisor
  | Op.scan tok => intelgpu.scan tok w
  | Op.stop during => (intelgpu.stop during w).1
  | Op.query => { w with e := (queryGPUSummaryJson w.e).1 }

/-- The supervisor after a sequence of operations. -/
def applyAll (w : Supervisor) (ops : List Op) : Supervisor :=
  ops.foldl Op.apply w

/-- The method `getGPUSummaryStats` of the collector, on the supervisor it
holds; `zero` is the zero value of `float64`. -/
def getGPUSummaryStats {F : Type} (parseFloat : String → Except String F) (zero : F)
    (e : intelGpuTopExec) : Option (gpuSummaryStats F) × Option String :=
  match queryGPUSummaryJson e with
  | (_, _, some err) => (none, some err)
  | (_, bs, none) =>
    let bs := bs.getD ""
    if bs.length = 0 then (none, some "query returned empty response")
    else
      let stats : gpuSummaryStats F := ⟨⟨zero⟩, ⟨zero⟩, ⟨zero, zero⟩⟩
      match parseStatsLine parseFloat bs stats with
      | (_, some err) => (none, some err)
      | (stats, none) => (some stats, none)

/-- The value of a Go `int` (64 bits) after an arithmetic step: two's
complement wrap-around. -/
def wrapInt (x : Int) : Int :=
  (x + 2 ^ 63) % 2 ^ 64 - 2 ^ 63

/-- A non-negative `float64` value, `mant / 2 ^ shift`. -/
structure F64 where
  mant : Nat
  shift : Nat
  deriving DecidableEq, Repr

/-- The integer nearest to `n / d`, a tie going to the even one. -/
def roundHalfEven (n d : Nat) : Nat :=
  let q := n / d
  let r := n % d
  if 2 * r < d then q
  else if d < 2 * r then q + 1
  else if q % 2 = 0 then q
  else q + 1

/-- The binary scale of `n / d`: counting up from `s`, the first shift at which
`n / d * 2 ^ s` reaches `2 ^ 52`, so that the scaled value has the 53
significant bits of a `float64`. -/
def binaryShift (n d : Nat) : Nat → Nat → Nat
  | 0, s => s
  | fuel + 1, s => if 2 ^ 52 * d ≤ n * 2 ^ s then s else binaryShift n d fuel (s + 1)

/-- The `float64` nearest to the exact value `n / d` (round to nearest, ties to
even), the rounding every `float64` operation applies to its exact result;
for `0 ≤ n / d < 2 ^ 53` above the subnormal range. -/
def toFloat64 (n d : Nat) : F64 :=
  if n = 0 then ⟨0, 0⟩
  else
    let s := binaryShift n d 1100 0
    ⟨roundHalfEven (n * 2 ^ s) d, s⟩

/-- The method `Duration.Seconds` of package `time` on a duration that is not
negative: `float64(sec) + float64(nsec)/1e9` with `sec := d / Second` and
`nsec := d % Second`. The two conversions are exact; the quotient is rounded,
and then the sum. -/
def Seconds (d : Nat) : F64 :=
  let sec := d / 1000000000
  let nsec := d % 1000000000
  let q := toFloat64 nsec 1000000000
  toFloat64 (sec * 2 ^ q.shift + q.mant) (2 ^ q.shift)

/-- The conversion `int(f)` of a `float64` that is not negative: the fraction
is dropped. -/
def F64.toInt (f : F64) : Nat :=
  f.mant / 2 ^ f.shift

/-- The conversion `int(d.Seconds())`. Go's `/` and `%` truncate toward zero,
rounding to nearest is symmetric and `int` drops the fraction, so a negative
duration gives the negated result of its absolute value. -/
def seconds (d : Int) : Int :=
  if d < 0 then -((Seconds d.natAbs).toInt : Int) else ((Seconds d.natAbs).toInt : Int)

/-- The local `interval` of `calcIntervalArg`, in milliseconds. -/
def interval (e : intelGpuTopExec) : Int :=
  let m := min e.updateEvery (seconds e.firstSampleTimeout)
  if m > 1 then wrapInt (wrapInt (m * 1000) - 500) else 900

/-- The method `calcIntervalArg`: `strconv.Itoa(interval)`. -/
def calcIntervalArg (e : intelGpuTopExec) : String :=
  toString (interval e)

/-- A running supervisor whose goroutine has stored one sample: what the
constructor returns for a child that has printed a header and one data row. -/
def running : Supervisor :=
  { e := { ndsudoPath := "ndsudo", updateEvery := 1, device := "",
           firstSampleTimeout := Second * 3, cmd := some ⟨some 42⟩,
           done := Chan.opened, lastSample := "t,0,1,2,3,4" }
    g := { phase := Phase.loop, n := 1, firstSample := false, stored := ["t,0,1,2,3,4"] } }

/-- The goroutine of a freshly started supervisor, before its first `Scan`. -/
def started : Supervisor :=
  { e := { ndsudoPath := "ndsudo", updateEvery := 1, device := "",
           firstSampleTimeout := Second * 3, cmd := some ⟨some 42⟩,
           done := Chan.opened, lastSample := "" }
    g := { phase := Phase.header, n := 0, firstSample := false, stored := [] } }

/-! ## The line parser -/

/-- Two texts that start with different characters differ, whatever follows. -/
theorem append_ne_of_head_ne (p q a b : String) (c d : Char) (p1 q1 : List Char)
    (hp : p.data = c :: p1) (hq : q.data = d :: q1) (hcd : c ≠ d) : p ++ a ≠ q ++ b := by
  intro h
  have h1 := congrArg String.data h
  simp only [String.data_append, hp, hq, List.cons_append] at h1
  exact hcd (List.cons.inj h1).1

/-- On a six-field line the parser is the chain of the four conversions, in
the order 5, 4, 2, 3, applied to the trimmed fields. -/
theorem parseStatsLine_six {F : Type} (parseFloat : String → Except String F)
    (line : String) (stats : gpuSummaryStats F) (f0 f1 f2 f3 f4 f5 : String)
    (hsplit : strings.Split line ',' = [f0, f1, f2, f3, f4, f5]) :
    parseStatsLine parseFloat line stats =
      match parseFloat (strings.TrimSpace f5) with
      | .error err => (stats, some ("failed to parse memory actual: " ++ err))
      | .ok memoryActual =>
        match parseFloat (strings.TrimSpace f4) with
        | .error err => (stats, some ("failed to parse memory utilization: " ++ err))
        | .ok memoryUtilization =>
          match parseFloat (strings.TrimSpace f2) with
          | .error err => (stats, some ("failed to parse power: " ++ err))
          | .ok power =>
            match parseFloat (strings.TrimSpace f3) with
            | .error err => (stats, some ("failed to parse frequency: " ++ err))
            | .ok frequency =>
              ({ Frequency := { Actual := frequency }
                 Power := { GPU := power }
                 Memory := { Actual := memoryActual, Utilization := memoryUtilization } },
               none) := by
  unfold parseStatsLine
  simp [hsplit, field]

/-- C1: a line that splits on ',' into exactly six fields whose trimmed fields
2, 3, 4 and 5 all convert makes `parseStatsLine` return no error and store
field 2 in `Power.GPU`, field 3 in `Frequency.Actual`, field 4 in
`Memory.Utilization` and field 5 in `Memory.Actual`, whatever fields 0 and 1
hold. -/
theorem parseStatsLine_ok {F : Type} (parseFloat : String → Except String F)
    (line : String) (stats : gpuSummaryStats F) (f0 f1 f2 f3 f4 f5 : String)
    (v2 v3 v4 v5 : F)
    (hsplit : strings.Split line ',' = [f0, f1, f2, f3, f4, f5])
    (h2 : parseFloat (strings.TrimSpace f2) = .ok v2)
    (h3 : parseFloat (strings.TrimSpace f3) = .ok v3)
    (h4 : parseFloat (strings.TrimSpace f4) = .ok v4)
    (h5 : parseFloat (strings.TrimSpace f5) = .ok v5) :
    parseStatsLine parseFloat line stats =
      ({ Frequency := { Actual := v3 }
         Power := { GPU := v2 }
         Memory := { Actual := v5, Utilization := v4 } }, none) := by
  rw [parseStatsLine_six parseFloat line stats f0 f1 f2 f3 f4 f5 hsplit]
  simp [h2, h3, h4, h5]

/-- The line "0,0,45.2,950.0,12.5,1024.0" yields power 45.2, frequency 950.0,
memory utilization 12.5 and memory used 1024.0. -/
theorem parseStatsLine_ok_witness :
    parseStatsLine parseDecimal "0,0,45.2,950.0,12.5,1024.0" zeroStats =
      ({ Frequency := { Actual := ⟨9500, 1⟩ }
         Power := { GPU := ⟨452, 1⟩ }
         Memory := { Actual := ⟨10240, 1⟩, Utilization := ⟨125, 1⟩ } }, none) :=
  parseStatsLine_ok parseDecimal "0,0,45.2,950.0,12.5,1024.0" zeroStats
    "0" "0" "45.2" "950.0" "12.5" "1024.0" ⟨452, 1⟩ ⟨9500, 1⟩ ⟨125, 1⟩ ⟨10240, 1⟩
    (by decide) (by rfl) (by rfl) (by rfl) (by rfl)

/-- C2: `parseStatsLine` returns the error "invalid number of fields in line: "
followed by exactly the input line if and only if splitting the line on ','
gives a number of fields other than six; in that case the record is left as it
was. -/
theorem parseStatsLine_malformed_iff {F : Type} (parseFloat : String → Except String F)
    (line : String) (stats : gpuSummaryStats F) :
    ((parseStatsLine parseFloat line stats).2 =
        some ("invalid number of fields in line: " ++ line) ↔
      (strings.Split line ',').length ≠ 6) ∧
    ((strings.Split line ',').length ≠ 6 →
      parseStatsLine parseFloat line stats =
        (stats, some ("invalid number of fields in line: " ++ line))) := by
  have hbad : (strings.Split line ',').length ≠ 6 →
      parseStatsLine parseFloat line stats =
        (stats, some ("invalid number of fields in line: " ++ line)) := by
    intro h
    unfold parseStatsLine
    simp [h]
  refine ⟨⟨?_, fun h => by rw [hbad h]⟩, hbad⟩
  intro h hlen
  have hne : ∀ (p e : String) (p1 : List Char), p.data = 'f' :: p1 →
      some (p ++ e) ≠ some ("invalid number of fields in line: " ++ line) := by
    intro p e p1 hp hEq
    exact append_ne_of_head_ne p "invalid number of fields in line: " e line 'f' 'i' p1
      "nvalid number of fields in line: ".data hp rfl (by decide) (Option.some.inj hEq)
  unfold parseStatsLine at h
  simp only [hlen, ne_eq, not_true_eq_false, if_false] at h
  split at h
  · exact hne _ _ _ rfl h
  · split at h
    · exact hne _ _ _ rfl h
    · split at h
      · exact hne _ _ _ rfl h
      · split at h
        · exact hne _ _ _ rfl h
        · exact absurd h (by simp)

/-- A line of two fields is rejected with the line itself in the message. -/
theorem parseStatsLine_malformed_iff_witness :
    parseStatsLine parseDecimal " a,b " zeroStats =
      (zeroStats, some "invalid number of fields in line:  a,b ") :=
  (parseStatsLine_malformed_iff parseDecimal " a,b " zeroStats).2 (by decide)

/-- C3: `parseStatsLine` is atomic on failure: whenever it returns an error,
for a wrong field count or for any one field that does not convert, the record
behind `stats` is exactly what it was before the call; and
`getGPUSummaryStats`, which hands it a fresh record, gives its caller no
record at all when it returns an error. -/
theorem parseStatsLine_atomic {F : Type} (parseFloat : String → Except String F)
    (line : String) (stats : gpuSummaryStats F)
    (herr : (parseStatsLine parseFloat line stats).2 ≠ none) :
    (parseStatsLine parseFloat line stats).1 = stats ∧
    ∀ (zero : F) (e : intelGpuTopExec),
      (getGPUSummaryStats parseFloat zero e).2 ≠ none →
        (getGPUSummaryStats parseFloat zero e).1 = none := by
  constructor
  · unfold parseStatsLine at herr ⊢
    by_cases hlen : (strings.Split line ',').length ≠ 6
    · simp [hlen]
    · simp only [hlen, if_false] at herr ⊢
      split
      · rfl
      · split
        · rfl
        · split
          · rfl
          · split
            · rfl
            · simp_all
  · intro zero e h
    unfold getGPUSummaryStats at h ⊢
    rcases hq : queryGPUSummaryJson e with ⟨e1, bs, err⟩
    simp only [hq] at h ⊢
    cases err with
    | some err => rfl
    | none =>
      simp only at h ⊢
      by_cases hl : (bs.getD "").length = 0
      · simp [hl]
      · simp only [hl, if_false] at h ⊢
        rcases hp : parseStatsLine parseFloat (bs.getD "") ⟨⟨zero⟩, ⟨zero⟩, ⟨zero, zero⟩⟩
          with ⟨st, perr⟩
        simp only [hp] at h ⊢
        cases perr with
        | some perr => rfl
        | none => simp at h

/-- A line whose power field is not numeric while the other three are: the
error is returned and a record holding other values is left untouched. -/
theorem parseStatsLine_atomic_witness :
    (parseStatsLine parseDecimal "0,0,x,950.0,12.5,1024.0"
        ⟨⟨⟨1, 0⟩⟩, ⟨⟨2, 0⟩⟩, ⟨⟨3, 0⟩, ⟨4, 0⟩⟩⟩).2 ≠ none ∧
    (parseStatsLine parseDecimal "0,0,x,950.0,12.5,1024.0"
        ⟨⟨⟨1, 0⟩⟩, ⟨⟨2, 0⟩⟩, ⟨⟨3, 0⟩, ⟨4, 0⟩⟩⟩).1 = ⟨⟨⟨1, 0⟩⟩, ⟨⟨2, 0⟩⟩, ⟨⟨3, 0⟩, ⟨4, 0⟩⟩⟩ :=
  ⟨by decide, (parseStatsLine_atomic parseDecimal "0,0,x,950.0,12.5,1024.0"
    ⟨⟨⟨1, 0⟩⟩, ⟨⟨2, 0⟩⟩, ⟨⟨3, 0⟩, ⟨4, 0⟩⟩⟩ (by decide)).1⟩

/-- C4: on a six-field line with at least one consumed field that does not
convert after trimming, `parseStatsLine` returns an error that names a field
whose conversion really failed and carries that conversion's error text:
"failed to parse memory actual: " for index 5, "failed to parse memory
utilization: " for index 4, "failed to parse power: " for index 2 and "failed
to parse frequency: " for index 3; the field reported is the first bad one in
the order 5, 4, 2, 3. -/
theorem parseStatsLine_field_error {F : Type} (parseFloat : String → Except String F)
    (line : String) (stats : gpuSummaryStats F) (f0 f1 f2 f3 f4 f5 : String)
    (hsplit : strings.Split line ',' = [f0, f1, f2, f3, f4, f5])
    (hbad : (∃ e, parseFloat (strings.TrimSpace f2) = .error e) ∨
      (∃ e, parseFloat (strings.TrimSpace f3) = .error e) ∨
      (∃ e, parseFloat (strings.TrimSpace f4) = .error e) ∨
      (∃ e, parseFloat (strings.TrimSpace f5) = .error e)) :
    (∃ name fld e,
      (name, fld) ∈ [("memory actual", f5), ("memory utilization", f4),
        ("power", f2), ("frequency", f3)] ∧
      parseFloat (strings.TrimSpace fld) = .error e ∧
      (parseStatsLine parseFloat line stats).2 =
        some ("failed to parse " ++ name ++ ": " ++ e)) ∧
    (∀ e, parseFloat (strings.TrimSpace f5) = .error e →
      (parseStatsLine parseFloat line stats).2 =
        some ("failed to parse memory actual: " ++ e)) ∧
    (∀ e, (∃ v, parseFloat (strings.TrimSpace f5) = .ok v) →
      parseFloat (strings.TrimSpace f4) = .error e →
      (parseStatsLine parseFloat line stats).2 =
        some ("failed to parse memory utilization: " ++ e)) ∧
    (∀ e, (∃ v, parseFloat (strings.TrimSpace f5) = .ok v) →
      (∃ v, parseFloat (strings.TrimSpace f4) = .ok v) →
      parseFloat (strings.TrimSpace f2) = .error e →
      (parseStatsLine parseFloat line stats).2 = some ("failed to parse power: " ++ e)) ∧
    (∀ e, (∃ v, parseFloat (strings.TrimSpace f5) = .ok v) →
      (∃ v, parseFloat (strings.TrimSpace f4) = .ok v) →
      (∃ v, parseFloat (strings.TrimSpace f2) = .ok v) →
      parseFloat (strings.TrimSpace f3) = .error e →
      (parseStatsLine parseFloat line stats).2 =
        some ("failed to parse frequency: " ++ e)) := by
  rw [parseStatsLine_six parseFloat line stats f0 f1 f2 f3 f4 f5 hsplit]
  refine ⟨?_, ?_, ?_, ?_, ?_⟩
  · cases h5 : parseFloat (strings.TrimSpace f5) with
    | error e5 => exact ⟨"memory actual", f5, e5, by simp, h5, by rfl⟩
    | ok v5 =>
      cases h4 : parseFloat (strings.TrimSpace f4) with
      | error e4 => exact ⟨"memory utilization", f4, e4, by simp, h4, by rfl⟩
      | ok v4 =>
        cases h2 : parseFloat (strings.TrimSpace f2) with
        | error e2 => exact ⟨"power", f2, e2, by simp, h2, by rfl⟩
        | ok v2 =>
          cases h3 : parseFloat (strings.TrimSpace f3) with
          | error e3 => exact ⟨"frequency", f3, e3, by simp, h3, by rfl⟩
          | ok v3 => simp [h5, h4, h2, h3] at hbad
  · intro e h5
    simp [h5]
  · rintro e ⟨v5, h5⟩ h4
    simp [h5, h4]
  · rintro e ⟨v5, h5⟩ ⟨v4, h4⟩ h2
    simp [h5, h4, h2]
  · rintro e ⟨v5, h5⟩ ⟨v4, h4⟩ ⟨v2, h2⟩ h3
    simp [h5, h4, h2, h3]

/-- A line whose fields 2 and 4 are both bad: index 4 is checked before index
2, so the memory utilization error is the one returned, with the text of the
failed conversion. -/
theorem parseStatsLine_field_error_witness :
    (parseStatsLine parseDecimal "0,0,x,950.0,y,1024.0" zeroStats).2 =
      some ("failed to parse memory utilization: " ++
        "strconv.ParseFloat: parsing \"y\": invalid syntax") :=
  (parseStatsLine_field_error parseDecimal "0,0,x,950.0,y,1024.0" zeroStats
    "0" "0" "x" "950.0" "y" "1024.0" (by decide) (Or.inl ⟨_, rfl⟩)).2.2.1
    _ ⟨_, rfl⟩ rfl

/-! ## The supervisor: liveness check and stop -/

theorem scan_exited (tok : Option String) (w : Supervisor) (h : w.g.phase = Phase.exited) :
    scan tok w = w := by
  unfold scan
  simp [h]

theorem feed_nil (w : Supervisor) : feed w [] = w := rfl

theorem feed_cons (w : Supervisor) (tok : Option String) (toks : List (Option String)) :
    feed w (tok :: toks) = feed (scan tok w) toks := rfl

theorem feed_append (w : Supervisor) (a b : List (Option String)) :
    feed w (a ++ b) = feed (feed w a) b := by
  unfold feed
  rw [List.foldl_append]

theorem feed_exited (w : Supervisor) (toks : List (Option String))
    (h : w.g.phase = Phase.exited) : feed w toks = w := by
  induction toks with
  | nil => rfl
  | cons tok toks ih => rw [feed_cons, scan_exited tok w h, ih]

/-- The goroutine never touches `cmd`, and it never reopens `done`. -/
theorem scan_cmd_done (tok : Option String) (w : Supervisor) :
    (scan tok w).e.cmd = w.e.cmd ∧
      (w.e.done = Chan.closed → (scan tok w).e.done = Chan.closed) := by
  unfold scan closeDone
  cases w.g.phase <;> cases tok <;> simp
  split_ifs <;> simp

theorem feed_cmd_done (w : Supervisor) (toks : List (Option String)) :
    (feed w toks).e.cmd = w.e.cmd ∧
      (w.e.done = Chan.closed → (feed w toks).e.done = Chan.closed) := by
  induction toks generalizing w with
  | nil => exact ⟨rfl, id⟩
  | cons tok toks ih =>
    rw [feed_cons]
    refine ⟨(ih _).1.trans (scan_cmd_done tok w).1, fun h => (ih _).2 ((scan_cmd_done tok w).2 h)⟩

/-- What `stop` leaves behind: no command, or the command it found unstarted;
and a closed `done` stays closed. -/
theorem stop_cmd_done (during : List (Option String)) (w : Supervisor) :
    ((stop during w).1.e.cmd = none ∨ (stop during w).1.e.cmd = some ⟨none⟩) ∧
      (w.e.done = Chan.closed → (stop during w).1.e.done = Chan.closed) := by
  unfold stop
  cases hc : w.e.cmd with
  | none => simp [hc]
  | some cmd =>
    obtain ⟨proc⟩ := cmd
    cases proc with
    | none => simp [hc]
    | some pid =>
      simp only
      have hf := feed_cmd_done { w with e := { w.e with cmd := none } } during
      split <;> exact ⟨Or.inl hf.1, fun h => hf.2 h⟩

theorem apply_done_closed (w : Supervisor) (op : Op) (h : w.e.done = Chan.closed) :
    (Op.apply w op).e.done = Chan.closed := by
  cases op with
  | scan tok => exact (scan_cmd_done tok w).2 h
  | stop during => exact (stop_cmd_done during w).2 h
  | query =>
    simp only [Op.apply, queryGPUSummaryJson]
    split <;> exact h

theorem applyAll_done_closed (w : Supervisor) (ops : List Op) (h : w.e.done = Chan.closed) :
    (applyAll w ops).e.done = Chan.closed := by
  induction ops generalizing w with
  | nil => exact h
  | cons op ops ih => exact ih _ (apply_done_closed w op h)

theorem query_closed (e : intelGpuTopExec) (h : e.done = Chan.closed) :
    queryGPUSummaryJson e = (e, none, some "process has already exited") := by
  unfold queryGPUSummaryJson
  simp [h]

theorem query_not_closed (e : intelGpuTopExec) (h : e.done ≠ Chan.closed) :
    queryGPUSummaryJson e = (e, some e.lastSample, none) := by
  unfold queryGPUSummaryJson
  split
  · contradiction
  · rfl

/-- A call of `stop` that found a started process and returned no error saw
`done` closed. -/
theorem stop_ok_done (during : List (Option String)) (w : Supervisor) (pid : Nat)
    (hcmd : w.e.cmd = some ⟨some pid⟩) (hok : (stop during w).2.1 = none) :
    (stop during w).1.e.done = Chan.closed := by
  unfold stop at hok ⊢
  simp only [hcmd] at hok ⊢
  split <;> rename_i h
  · exact h
  · split at hok
    · contradiction
    · simp at hok

/-- C5 (as amended): in every state where `done` is closed
`queryGPUSummaryJson` returns the error "process has already exited" and no
bytes, and it keeps doing so after any further goroutine steps, `stop` calls
and queries, because nothing reopens `done`; a `stop` that found a started
process and returned no error leaves `done` closed, so queries fail after it;
in every state where `done` is not closed the query returns exactly the
current `lastSample` and leaves the supervisor as it was. -/
theorem queryGPUSummaryJson_done (w : Supervisor) (ops : List Op)
    (during : List (Option String)) :
    (w.e.done = Chan.closed →
      queryGPUSummaryJson (applyAll w ops).e =
        ((applyAll w ops).e, none, some "process has already exited")) ∧
    (∀ pid, w.e.cmd = some ⟨some pid⟩ → (stop during w).2.1 = none →
      queryGPUSummaryJson (applyAll (stop during w).1 ops).e =
        ((applyAll (stop during w).1 ops).e, none, some "process has already exited")) ∧
    (w.e.done ≠ Chan.closed →
      queryGPUSummaryJson w.e = (w.e, some w.e.lastSample, none)) := by
  refine ⟨fun h => query_closed _ (applyAll_done_closed w ops h), ?_, query_not_closed w.e⟩
  intro pid hcmd hok
  exact query_closed _ (applyAll_done_closed _ ops (stop_ok_done during w pid hcmd hok))

/-- After the goroutine has seen the end of the stream, a query fails, also
behind two more output lines and another query. -/
theorem queryGPUSummaryJson_done_witness :
    queryGPUSummaryJson
        (applyAll (scan none running) [Op.scan (some "t,0,9,9,9,9"), Op.query]).e =
      ((applyAll (scan none running) [Op.scan (some "t,0,9,9,9,9"), Op.query]).e,
        none, some "process has already exited") :=
  (queryGPUSummaryJson_done (scan none running)
    [Op.scan (some "t,0,9,9,9,9"), Op.query] []).1 (by decide)

/-- C5 (the claim as written fails): a `stop` whose two-second wait for `done`
times out has been called and has cleared `cmd`, yet `done` is still open, and
the next query returns the old `lastSample` with no error. -/
theorem queryGPUSummaryJson_after_timed_out_stop :
    newIntelGpuTopExec
        ⟨none, none, 42, [some "hdr", some "t,0,1,2,3,4"], SelectCase.firstSample, []⟩
        "ndsudo" 1 "" = (some running, none) ∧
    (stop [] running).2.1 = some "timed out waiting for process to exit" ∧
    (stop [] running).1.e.cmd = none ∧
    queryGPUSummaryJson (stop [] running).1.e =
      ((stop [] running).1.e, some "t,0,1,2,3,4", none) := by
  decide

/-- C6 (as amended): of two `stop` calls in succession the second always
returns no error, acts on no process and leaves the supervisor unchanged; the
first returns either no error or the error "timed out waiting for process to
exit", and no error exactly when there is no started process or `done` is
closed by the end of its wait. A supervisor that `run` stopped on a failed
handshake is in the same position: a later `stop` is a successful no-op. -/
theorem stop_idempotent (w : Supervisor) (d1 d2 : List (Option String)) :
    stop d2 (stop d1 w).1 = ((stop d1 w).1, none, []) ∧
    ((stop d1 w).2.1 = none ∨
      (stop d1 w).2.1 = some "timed out waiting for process to exit") ∧
    ((stop d1 w).2.1 = none ↔
      (w.e.cmd = none ∨ w.e.cmd = some ⟨none⟩ ∨ (stop d1 w).1.e.done = Chan.closed)) ∧
    (∀ env : RunEnv, env.pipeErr = none → env.startErr = none → (run env w).2 ≠ none →
      stop d1 (run env w).1 = ((run env w).1, none, [])) := by
  have hnoop : ∀ (v : Supervisor) (d : List (Option String)),
      (v.e.cmd = none ∨ v.e.cmd = some ⟨none⟩) → stop d v = (v, none, []) := by
    intro v d h
    unfold stop
    rcases h with h | h <;> simp [h]
  refine ⟨hnoop _ d2 (stop_cmd_done d1 w).1, ?_, ?_, ?_⟩
  · unfold stop
    split
    · simp
    · split
      · simp
      · simp only
        split <;> simp
  · cases hc : w.e.cmd with
    | none => simp [hnoop w d1 (Or.inl hc)]
    | some cmd =>
      obtain ⟨proc⟩ := cmd
      cases proc with
      | none => simp [hnoop w d1 (Or.inr hc)]
      | some pid =>
        constructor
        · intro hok
          exact Or.inr (Or.inr (stop_ok_done d1 w pid hc hok))
        · intro h
          have hd : (stop d1 w).1.e.done = Chan.closed := by simpa using h
          unfold stop at hd ⊢
          simp only [hc] at hd ⊢
          split <;> rename_i hh
          · rfl
          · split at hd
            · contradiction
            · exact absurd hd hh
  · intro env hp hs herr
    apply hnoop
    unfold run at herr ⊢
    simp only [hp, hs] at herr ⊢
    split_ifs with h1 h2
    · exact (stop_cmd_done _ _).1
    · simp [h1, h2] at herr
    · exact (stop_cmd_done _ _).1

/-- A running supervisor whose goroutine sees the end of the stream while the
first `stop` waits: both calls return no error and the second changes
nothing. -/
theorem stop_idempotent_witness :
    (stop [none] running).2.1 = none ∧
    stop [none] (stop [none] running).1 = ((stop [none] running).1, none, []) :=
  ⟨(stop_idempotent running [none] [none]).2.2.1.mpr (Or.inr (Or.inr (by decide))),
    (stop_idempotent running [none] [none]).1⟩

/-- C6 (the claim as written fails): on a running supervisor whose goroutine
does not finish within the two-second wait, the first of two `stop` calls
returns the timeout error; only the second returns no error. -/
theorem stop_twice_first_call_times_out :
    newIntelGpuTopExec
        ⟨none, none, 42, [some "hdr", some "t,0,1,2,3,4"], SelectCase.firstSample, []⟩
        "ndsudo" 1 "" = (some running, none) ∧
    (stop [] running).2.1 = some "timed out waiting for process to exit" ∧
    (stop [] (stop [] running).1).2.1 = none ∧
    (stop [] (stop [] running).1).2.2 = [] := by
  decide

/-! ## The background read loop -/

/-- One `Scan` either leaves `lastSample`, the first-sample slot and the log of
stores alone, or it read an accepted line, stored exactly that line and filled
the first-sample slot. -/
theorem scan_cases (tok : Option String) (w : Supervisor) :
    ((scan tok w).e.lastSample = w.e.lastSample ∧
        (scan tok w).g.firstSample = w.g.firstSample ∧
        (scan tok w).g.stored = w.g.stored) ∨
      ∃ text, tok = some text ∧ text ≠ "" ∧ strings.Contains text ',' = true ∧
        (scan tok w).e.lastSample = text ∧ (scan tok w).g.firstSample = true ∧
        (scan tok w).g.stored = w.g.stored ++ [text] := by
  unfold scan closeDone
  cases w.g.phase <;> cases tok <;> simp
  split_ifs <;> simp_all

/-- A line that is empty or has no comma changes neither `lastSample` nor the
first-sample slot nor the log of stores. -/
theorem scan_rejected (text : String) (w : Supervisor) (h : accepted text = false) :
    (scan (some text) w).e.lastSample = w.e.lastSample ∧
      (scan (some text) w).g.firstSample = w.g.firstSample ∧
      (scan (some text) w).g.stored = w.g.stored := by
  rcases scan_cases (some text) w with h1 | ⟨t, ht, hne, hc, _⟩
  · exact h1
  · cases ht
    simp [accepted, hne, hc] at h

/-- Every value the goroutine adds to the log of stores is an accepted line of
its input. -/
theorem feed_stored (w : Supervisor) (toks : List (Option String)) :
    ∀ v ∈ (feed w toks).g.stored,
      v ∈ w.g.stored ∨ (some v ∈ toks ∧ v ≠ "" ∧ strings.Contains v ',' = true) := by
  induction toks using List.reverseRecOn with
  | nil => intro v hv; exact Or.inl hv
  | append_singleton toks tok ih =>
    intro v hv
    rw [feed_append, feed_cons, feed_nil] at hv
    rcases scan_cases tok (feed w toks) with ⟨_, _, h3⟩ | ⟨text, ht, hne, hc, _, _, h3⟩
    · rw [h3] at hv
      rcases ih v hv with h | ⟨h1, h2⟩
      · exact Or.inl h
      · exact Or.inr ⟨by simp [h1], h2⟩
    · rw [h3, List.mem_append, List.mem_singleton] at hv
      rcases hv with hv | hv
      · rcases ih v hv with h | ⟨h1, h2⟩
        · exact Or.inl h
        · exact Or.inr ⟨by simp [h1], h2⟩
      · subst hv
        exact Or.inr ⟨by simp [ht], hne, hc⟩

/-- The value of `lastSample` is the old one or an accepted line of the
input. -/
theorem feed_lastSample (w : Supervisor) (toks : List (Option String)) :
    (feed w toks).e.lastSample = w.e.lastSample ∨
      (some (feed w toks).e.lastSample ∈ toks ∧ (feed w toks).e.lastSample ≠ "" ∧
        strings.Contains (feed w toks).e.lastSample ',' = true) := by
  induction toks using List.reverseRecOn with
  | nil => exact Or.inl rfl
  | append_singleton toks tok ih =>
    rw [feed_append, feed_cons, feed_nil]
    rcases scan_cases tok (feed w toks) with ⟨h1, _, _⟩ | ⟨text, ht, hne, hc, h1, _, _⟩
    · rw [h1]
      rcases ih with h | ⟨h, h2⟩
      · exact Or.inl h
      · exact Or.inr ⟨by simp [h], h2⟩
    · rw [h1]
      exact Or.inr ⟨by simp [ht], hne, hc⟩

/-- When the first-sample slot is filled by the input, `lastSample` is an
accepted line of that input. -/
theorem feed_firstSample (w : Supervisor) (toks : List (Option String))
    (h0 : w.g.firstSample = false) (h1 : (feed w toks).g.firstSample = true) :
    some (feed w toks).e.lastSample ∈ toks ∧ (feed w toks).e.lastSample ≠ "" ∧
      strings.Contains (feed w toks).e.lastSample ',' = true := by
  induction toks using List.reverseRecOn with
  | nil => rw [feed_nil, h0] at h1; contradiction
  | append_singleton toks tok ih =>
    rw [feed_append, feed_cons, feed_nil] at h1 ⊢
    rcases scan_cases tok (feed w toks) with ⟨h2, h3, _⟩ | ⟨text, ht, hne, hc, h2, _, _⟩
    · rw [h3] at h1
      rw [h2]
      exact ⟨by simp [(ih h1).1], (ih h1).2⟩
    · rw [h2]
      exact ⟨by simp [ht], hne, hc⟩

/-- A non-empty `lastSample` with a comma stays one under every operation. -/
theorem apply_sample (w : Supervisor) (op : Op)
    (h : w.e.lastSample ≠ "" ∧ strings.Contains w.e.lastSample ',' = true) :
    (Op.apply w op).e.lastSample ≠ "" ∧
      strings.Contains (Op.apply w op).e.lastSample ',' = true := by
  have hfeed : ∀ (v : Supervisor) (toks : List (Option String)),
      (v.e.lastSample ≠ "" ∧ strings.Contains v.e.lastSample ',' = true) →
      ((feed v toks).e.lastSample ≠ "" ∧
        strings.Contains (feed v toks).e.lastSample ',' = true) := by
    intro v toks hv
    rcases feed_lastSample v toks with h1 | ⟨_, h2⟩
    · rw [h1]; exact hv
    · exact h2
  cases op with
  | scan tok => exact hfeed w [tok] h
  | stop during =>
    simp only [Op.apply]
    unfold stop
    split
    · exact h
    · split
      · exact h
      · simp only
        split <;> exact hfeed _ during h
  | query =>
    simp only [Op.apply, queryGPUSummaryJson]
    split <;> exact h

theorem applyAll_sample (w : Supervisor) (ops : List Op)
    (h : w.e.lastSample ≠ "" ∧ strings.Contains w.e.lastSample ',' = true) :
    (applyAll w ops).e.lastSample ≠ "" ∧
      strings.Contains (applyAll w ops).e.lastSample ',' = true := by
  induction ops generalizing w with
  | nil => exact h
  | cons op ops ih => exact ih _ (apply_sample w op h)

/-- A successful `run` took the first-sample case: its goroutine had stored an
accepted line of the child's output. -/
theorem run_ok_sample (env : RunEnv) (w : Supervisor) (hok : (run env w).2 = none) :
    some (run env w).1.e.lastSample ∈ env.before ∧ (run env w).1.e.lastSample ≠ "" ∧
      strings.Contains (run env w).1.e.lastSample ',' = true := by
  unfold run at hok ⊢
  cases hp : env.pipeErr with
  | some err => simp [hp] at hok
  | none =>
    cases hs : env.startErr with
    | some err => simp [hp, hs] at hok
    | none =>
      simp only [hp, hs] at hok ⊢
      split_ifs at hok ⊢ with h1 h2
      exact feed_firstSample _ env.before rfl h2.2

/-- C7: every value the background read loop stores in `lastSample` is one
complete line of the child's output, is not empty and contains ','; an empty
line or a line without ',' changes neither `lastSample` nor the first-sample
signal. Hence when `run` succeeds `lastSample` is such a line, and every later
`queryGPUSummaryJson` that returns bytes returns a non-empty line with a
comma. -/
theorem readLoop_stores_accepted_lines (w : Supervisor) (toks : List (Option String)) :
    (∀ v ∈ (feed w toks).g.stored,
      v ∈ w.g.stored ∨ (some v ∈ toks ∧ v ≠ "" ∧ strings.Contains v ',' = true)) ∧
    ((feed w toks).e.lastSample = w.e.lastSample ∨
      (some (feed w toks).e.lastSample ∈ toks ∧ (feed w toks).e.lastSample ≠ "" ∧
        strings.Contains (feed w toks).e.lastSample ',' = true)) ∧
    (∀ text, (text = "" ∨ strings.Contains text ',' = false) →
      (scan (some text) w).e.lastSample = w.e.lastSample ∧
        (scan (some text) w).g.firstSample = w.g.firstSample ∧
        (scan (some text) w).g.stored = w.g.stored) ∧
    (∀ env : RunEnv, (run env w).2 = none →
      (some (run env w).1.e.lastSample ∈ env.before ∧ (run env w).1.e.lastSample ≠ "" ∧
        strings.Contains (run env w).1.e.lastSample ',' = true) ∧
      ∀ (ops : List Op) (bs : String),
        (queryGPUSummaryJson (applyAll (run env w).1 ops).e).2.1 = some bs →
          bs ≠ "" ∧ strings.Contains bs ',' = true) := by
  refine ⟨feed_stored w toks, feed_lastSample w toks, ?_, ?_⟩
  · intro text h
    apply scan_rejected
    rcases h with h | h <;> simp [accepted, h]
  · intro env hok
    have hs := run_ok_sample env w hok
    refine ⟨hs, ?_⟩
    intro ops bs hq
    have hinv := applyAll_sample (run env w).1 ops hs.2
    unfold queryGPUSummaryJson at hq
    split at hq
    · simp at hq
    · simp only [Option.some.injEq] at hq
      rw [← hq]
      exact hinv

/-- A child that prints a header and one data row: `run` succeeds on the
first-sample case and `lastSample` is that row. -/
theorem readLoop_stores_accepted_lines_witness :
    (run ⟨none, none, 42, [some "hdr", some "t,0,1,2,3,4"], SelectCase.firstSample, []⟩
        started).2 = none ∧
    (run ⟨none, none, 42, [some "hdr", some "t,0,1,2,3,4"], SelectCase.firstSample, []⟩
        started).1.e.lastSample ≠ "" :=
  ⟨by decide,
    ((readLoop_stores_accepted_lines started []).2.2.2
      ⟨none, none, 42, [some "hdr", some "t,0,1,2,3,4"], SelectCase.firstSample, []⟩
      (by decide)).1.2.1⟩

/-! ## The header line and the line cap -/

theorem feedLines_cons (w : Supervisor) (text : String) (rest : List String) :
    feedLines w (text :: rest) = feedLines (scan (some text) w) rest := rfl

/-- The state of the goroutine after any number of lines read inside the
`for` loop: it stores the accepted ones among the next `1000 - n` lines, and
the line after those makes it leave the loop and close `done`. -/
theorem feedLines_loop (lines : List String) :
    ∀ w : Supervisor, w.g.phase = Phase.loop →
      (feedLines w lines).g.stored =
          w.g.stored ++ (lines.take (1000 - w.g.n)).filter accepted ∧
        (feedLines w lines).e.lastSample =
          ((lines.take (1000 - w.g.n)).filter accepted).getLastD w.e.lastSample ∧
        (feedLines w lines).g.phase =
          (if 1000 - w.g.n < lines.length then Phase.exited else Phase.loop) ∧
        (feedLines w lines).e.done =
          (if 1000 - w.g.n < lines.length then Chan.closed else w.e.done) ∧
        (feedLines w lines).g.n =
          (if 1000 - w.g.n < lines.length then w.g.n + (1000 - w.g.n) + 1
            else w.g.n + lines.length) := by
  induction lines with
  | nil =>
    intro w h
    simp [feedLines, feed, h]
  | cons text rest ih =>
    intro w h
    rw [feedLines_cons]
    by_cases hn : w.g.n + 1 > 1000
    · have hs : scan (some text) w = closeDone { w with g := { w.g with n := w.g.n + 1 } } := by
        unfold scan
        simp [h, hn]
      have hk : 1000 - w.g.n = 0 := by omega
      rw [hs, feedLines, feed_exited _ _ rfl, hk]
      simp [closeDone]
    · have hk : 1000 - w.g.n = (1000 - (w.g.n + 1)) + 1 := by omega
      by_cases ha : accepted text = true
      · have hs : scan (some text) w =
            { e := { w.e with lastSample := text }
              g := { w.g with n := w.g.n + 1, firstSample := true,
                              stored := w.g.stored ++ [text] } } := by
          simp only [accepted, Bool.and_eq_true, decide_eq_true_eq] at ha
          unfold scan
          simp [h, hn, ha.1, ha.2]
        obtain ⟨i1, i2, i3, i4, i5⟩ := ih (scan (some text) w) (by rw [hs]; exact h)
        rw [i1, i2, i3, i4, i5, hs, hk, List.take_succ_cons, List.filter_cons_of_pos ha]
        simp only [List.getLastD_cons, List.length_cons, Nat.add_lt_add_iff_right,
          List.append_assoc, List.singleton_append, true_and]
        split_ifs <;> omega
      · have hs : scan (some text) w = { w with g := { w.g with n := w.g.n + 1 } } := by
          simp only [accepted, Bool.and_eq_true, decide_eq_true_eq, not_and,
            Bool.not_eq_true] at ha
          unfold scan
          by_cases he : text = ""
          · simp [h, hn, he]
          · simp [h, hn, he, ha he]
        obtain ⟨i1, i2, i3, i4, i5⟩ := ih (scan (some text) w) (by rw [hs]; exact h)
        rw [i1, i2, i3, i4, i5, hs, hk, List.take_succ_cons, List.filter_cons_of_neg ha]
        simp only [List.length_cons, Nat.add_lt_add_iff_right, true_and]
        split_ifs <;> omega

/-- The header `Scan` consumes the first line whatever it holds. -/
theorem feedLines_header (w : Supervisor) (first : String) (rest : List String)
    (hphase : w.g.phase = Phase.header) :
    feedLines w (first :: rest) =
      feedLines { w with g := { w.g with phase := Phase.loop } } rest := by
  rw [feedLines_cons]
  congr 1
  unfold scan
  simp [hphase]

/-- C8 (as amended): the header test of the read loop looks for ':' and not
for ','. For every child output whose first line has no ':', that line is
discarded even when it contains ',': it is not stored in `lastSample`, it sends
no first-sample signal, and the loop goes on with the second line. So a child
that emits one such line and then stays silent never completes the
handshake. -/
theorem header_line_discarded (w : Supervisor) (first : String) (rest : List String)
    (hphase : w.g.phase = Phase.header) (hcolon : strings.Contains first ':' = false) :
    scan (some first) w = { w with g := { w.g with phase := Phase.loop } } ∧
    feedLines w (first :: rest) =
      feedLines { w with g := { w.g with phase := Phase.loop } } rest ∧
    ∀ env : RunEnv, env.before = [some first] → (run env w).2 ≠ none := by
  refine ⟨?_, feedLines_header w first rest hphase, ?_⟩
  · unfold scan
    simp only [hphase, hcolon, Bool.not_false, if_true]
  · intro env hb
    unfold run
    cases env.pipeErr with
    | some err => simp
    | none =>
      cases env.startErr with
      | some err => simp
      | none =>
        simp only [hb]
        split_ifs with h1 h2
        · simp
        · exfalso
          have h3 := h2.2
          simp [feed, scan] at h3
        · simp

/-- The line "0,0,45.2,950.0,12.5,1024.0" has a comma and no colon: as the
first line of the output it is dropped. -/
theorem header_line_discarded_witness :
    scan (some "0,0,45.2,950.0,12.5,1024.0") started =
      { started with g := { started.g with phase := Phase.loop } } :=
  (header_line_discarded started "0,0,45.2,950.0,12.5,1024.0" [] rfl (by decide)).1

/-- C8 (the claim as written fails): a child that emits the single line
"0,0,45.2,950.0,12.5,1024.0", which contains ',', and then stays silent leaves
`lastSample` empty and the first-sample slot empty, and the constructor ends
with the timeout error. -/
theorem first_line_with_comma_not_stored :
    (feedLines started ["0,0,45.2,950.0,12.5,1024.0"]).e.lastSample = "" ∧
    (feedLines started ["0,0,45.2,950.0,12.5,1024.0"]).g.firstSample = false ∧
    newIntelGpuTopExec
        ⟨none, none, 42, [some "0,0,45.2,950.0,12.5,1024.0"], SelectCase.firstSample, [none]⟩
        "ndsudo" 1 "" =
      (none, some "timed out waiting for first sample") := by
  decide

/-- The goroutine of a started supervisor after any number of output lines:
the first line is consumed by the header `Scan`, the next thousand are
examined, and one more line ends the loop. -/
theorem feedLines_started (w : Supervisor) (lines : List String)
    (hphase : w.g.phase = Phase.header) (hn : w.g.n = 0) :
    (feedLines w lines).g.stored =
        w.g.stored ++ ((lines.drop 1).take 1000).filter accepted ∧
      (feedLines w lines).e.lastSample =
        (((lines.drop 1).take 1000).filter accepted).getLastD w.e.lastSample ∧
      (feedLines w lines).g.phase =
        (if lines = [] then Phase.header
          else if 1001 < lines.length then Phase.exited else Phase.loop) ∧
      (feedLines w lines).e.done =
        (if 1001 < lines.length then Chan.closed else w.e.done) ∧
      (feedLines w lines).g.n = min (lines.length - 1) 1001 := by
  cases lines with
  | nil => simp [feedLines, feed, hphase, hn]
  | cons first rest =>
    rw [feedLines_header w first rest hphase]
    have key := feedLines_loop rest { w with g := { w.g with phase := Phase.loop } } rfl
    revert key
    generalize feedLines { w with g := { w.g with phase := Phase.loop } } rest = r
    rintro ⟨i1, i2, i3, i4, i5⟩
    simp only [hn, Nat.sub_zero, Nat.zero_add] at i1 i2 i3 i4 i5
    rw [i1, i2, i3, i4, i5]
    simp only [List.drop_succ_cons, List.drop_zero, List.length_cons, reduceCtorEq,
      if_false, Nat.add_sub_cancel, true_and]
    refine ⟨?_, ?_, ?_⟩
    · split_ifs <;> first | rfl | omega
    · split_ifs <;> first | rfl | omega
    · split_ifs <;> omega

/-- C9: the line cap of the read loop is exact. After the first scanned line
the loop examines the next 1000 lines, skipped ones included, and the line
after them makes it exit and close `done`: what is stored are the accepted
lines among positions 2 to 1001, a line at position 1001 becomes `lastSample`
when it is accepted, lines from position 1002 on change nothing, and once the
cap is hit `queryGPUSummaryJson` fails with "process has already exited" just
as it does after the end of the stream. -/
theorem readLoop_line_cap (w : Supervisor) (lines : List String)
    (hphase : w.g.phase = Phase.header) (hn : w.g.n = 0) (hdone : w.e.done = Chan.opened) :
    (feedLines w lines).g.stored =
        w.g.stored ++ ((lines.drop 1).take 1000).filter accepted ∧
    (feedLines w lines).g.n = min (lines.length - 1) 1001 ∧
    ((feedLines w lines).g.stored = (feedLines w (lines.take 1001)).g.stored ∧
      (feedLines w lines).e.lastSample = (feedLines w (lines.take 1001)).e.lastSample) ∧
    (∀ (pre : List String) (l : String), pre.length = 1000 → accepted l = true →
      (feedLines w (pre ++ [l])).e.lastSample = l ∧
        (feedLines w (pre ++ [l])).e.done = Chan.opened) ∧
    ((feedLines w lines).e.done = Chan.closed ↔ 1002 ≤ lines.length) ∧
    (1002 ≤ lines.length →
      queryGPUSummaryJson (feedLines w lines).e =
        ((feedLines w lines).e, none, some "process has already exited")) ∧
    queryGPUSummaryJson (feed w (lines.map some ++ [none])).e =
      ((feed w (lines.map some ++ [none])).e, none, some "process has already exited") := by
  obtain ⟨i1, i2, i3, i4, i5⟩ := feedLines_started w lines hphase hn
  have hcl : (feedLines w lines).e.done = Chan.closed ↔ 1002 ≤ lines.length := by
    rw [i4, hdone]
    split_ifs with h
    · simp; omega
    · simp; omega
  refine ⟨i1, i5, ?_, ?_, hcl, fun h => query_closed _ (hcl.mpr h), ?_⟩
  · obtain ⟨j1, j2, _, _, _⟩ := feedLines_started w (lines.take 1001) hphase hn
    have ht : ((lines.take 1001).drop 1).take 1000 = (lines.drop 1).take 1000 := by
      rw [List.drop_take, List.take_take]
      simp
    rw [i1, i2, j1, j2, ht]
    exact ⟨rfl, rfl⟩
  · intro pre l hpre hl
    obtain ⟨_, j2, _, j4, _⟩ := feedLines_started w (pre ++ [l]) hphase hn
    rw [j2, j4, hdone]
    have hlen : (pre ++ [l]).length = 1001 := by simp [hpre]
    constructor
    · have ht : ((pre ++ [l]).drop 1).take 1000 = (pre.drop 1) ++ [l] := by
        rw [List.drop_append_of_le_length (by omega)]
        apply List.take_of_length_le
        simp [hpre]
      rw [ht, List.filter_append, List.filter_cons_of_pos hl, List.filter_nil,
        List.getLastD_concat]
    · rw [hlen]
      simp
  · apply query_closed
    rw [feed_append, feed_cons, feed_nil]
    have hf : feed w (lines.map some) = feedLines w lines := rfl
    rw [hf]
    by_cases hlen : 1001 < lines.length
    · have hex : (feedLines w lines).g.phase = Phase.exited := by
        rw [i3]
        have : lines ≠ [] := by intro h; simp [h] at hlen
        simp [this, hlen]
      rw [scan_exited _ _ hex]
      exact hcl.mpr (by omega)
    · have hph : (feedLines w lines).g.phase ≠ Phase.exited := by
        rw [i3]
        split_ifs <;> simp
      unfold scan
      cases hp : (feedLines w lines).g.phase with
      | exited => exact absurd hp hph
      | header => rfl
      | loop => rfl

/-- A thousand empty lines after the header and then an accepted line at
position 1001, the last position the loop still examines: that line becomes
`lastSample` and `done` is still open. -/
theorem readLoop_line_cap_witness :
    (feedLines started ("hdr" :: List.replicate 999 "" ++ ["t,0,1,2,3,4"])).e.lastSample =
        "t,0,1,2,3,4" ∧
      (feedLines started ("hdr" :: List.replicate 999 "" ++ ["t,0,1,2,3,4"])).e.done =
        Chan.opened :=
  (readLoop_line_cap started [] rfl rfl rfl).2.2.2.1 ("hdr" :: List.replicate 999 "")
    "t,0,1,2,3,4" (by rw [List.length_cons, List.length_replicate]) (by decide)

/-! ## The interval argument -/

/-- Rounding to the nearest integer does not pass an integer that bounds the
quotient from above. -/
theorem roundHalfEven_le (n d k : Nat) (hd : 0 < d) (h : n ≤ k * d) :
    roundHalfEven n d ≤ k := by
  unfold roundHalfEven
  have hq : n / d ≤ k := by
    apply Nat.div_le_of_le_mul
    rw [Nat.mul_comm]
    exact h
  have hdm := Nat.div_add_mod n d
  have hlt : 0 < n % d → n / d + 1 ≤ k := by
    intro hr
    by_contra hc
    have h1 : k ≤ n / d := by omega
    have h2 := Nat.mul_le_mul_left d h1
    have h3 : k * d = d * k := Nat.mul_comm k d
    omega
  simp only
  split_ifs <;> omega

/-- Rounding to the nearest integer does not pass an integer that bounds the
quotient from below. -/
theorem le_roundHalfEven (n d k : Nat) (hd : 0 < d) (h : k * d ≤ n) :
    k ≤ roundHalfEven n d := by
  unfold roundHalfEven
  have hq : k ≤ n / d := (Nat.le_div_iff_mul_le hd).mpr h
  simp only
  split_ifs <;> omega

theorem binaryShift_ge (n d fuel : Nat) : ∀ s, s ≤ binaryShift n d fuel s := by
  induction fuel with
  | zero => intro s; exact Nat.le_refl s
  | succ fuel ih =>
    intro s
    unfold binaryShift
    split_ifs
    · exact Nat.le_refl s
    · exact Nat.le_trans (Nat.le_succ s) (ih (s + 1))

/-- A value below `2 ^ 52` is scaled up by at least one bit. -/
theorem binaryShift_pos (n d : Nat) (h : n < 2 ^ 52 * d) : 0 < binaryShift n d 1100 0 := by
  have h1 : binaryShift n d 1100 0 = binaryShift n d 1099 1 := by
    show (if 2 ^ 52 * d ≤ n * 2 ^ 0 then 0 else binaryShift n d 1099 (0 + 1)) = _
    rw [if_neg (by simpa using h)]
  rw [h1]
  exact binaryShift_ge n d 1099 1

/-- Rounding to `float64` does not pass an integer above the exact value. -/
theorem toFloat64_le (n d k : Nat) (hd : 0 < d) (h : n ≤ k * d) :
    (toFloat64 n d).mant ≤ k * 2 ^ (toFloat64 n d).shift := by
  unfold toFloat64
  split_ifs with h0
  · exact Nat.zero_le _
  · simp only
    apply roundHalfEven_le _ _ _ hd
    calc n * 2 ^ binaryShift n d 1100 0
        ≤ k * d * 2 ^ binaryShift n d 1100 0 := Nat.mul_le_mul_right _ h
      _ = k * 2 ^ binaryShift n d 1100 0 * d := by ring

/-- Rounding to `float64` does not pass an integer below the exact value. -/
theorem le_toFloat64 (n d k : Nat) (hd : 0 < d) (h : k * d ≤ n) :
    k * 2 ^ (toFloat64 n d).shift ≤ (toFloat64 n d).mant := by
  unfold toFloat64
  split_ifs with h0
  · subst h0
    have hk : k = 0 := by
      rcases Nat.eq_zero_or_pos k with hk | hk
      · exact hk
      · have := Nat.mul_pos hk hd
        omega
    simp [hk]
  · simp only
    apply le_roundHalfEven _ _ _ hd
    calc k * 2 ^ binaryShift n d 1100 0 * d
        = k * d * 2 ^ binaryShift n d 1100 0 := by ring
      _ ≤ n * 2 ^ binaryShift n d 1100 0 := Nat.mul_le_mul_right _ h

/-- Rounding to `float64` does not pass a half-integer above the exact value,
when that value is below `2 ^ 52`. -/
theorem toFloat64_le_half (n d k : Nat) (hd : 0 < d) (h : 2 * n ≤ (2 * k + 1) * d)
    (hs : n < 2 ^ 52 * d) :
    2 * (toFloat64 n d).mant ≤ (2 * k + 1) * 2 ^ (toFloat64 n d).shift := by
  unfold toFloat64
  split_ifs with h0
  · simp
  · simp only
    have hpos := binaryShift_pos n d hs
    obtain ⟨t, ht⟩ : ∃ t, binaryShift n d 1100 0 = t + 1 := ⟨binaryShift n d 1100 0 - 1, by omega⟩
    rw [ht]
    have hr := roundHalfEven_le (n * 2 ^ (t + 1)) d ((2 * k + 1) * 2 ^ t) hd (by
      calc n * 2 ^ (t + 1) = 2 * n * 2 ^ t := by ring
        _ ≤ (2 * k + 1) * d * 2 ^ t := Nat.mul_le_mul_right _ h
        _ = (2 * k + 1) * 2 ^ t * d := by ring)
    calc 2 * roundHalfEven (n * 2 ^ (t + 1)) d
        ≤ 2 * ((2 * k + 1) * 2 ^ t) := Nat.mul_le_mul_left 2 hr
      _ = (2 * k + 1) * 2 ^ (t + 1) := by ring

/-- The sum `float64(sec) + float64(nsec)/1e9` converted to an integer is
`sec` or one more, and one more only when `nsec` is above half a second. -/
theorem sum_toInt (sec nsec : Nat) (hsec : sec < 2 ^ 35) (hnsec : nsec < 1000000000)
    (q y : F64) (hq : toFloat64 nsec 1000000000 = q)
    (hy : toFloat64 (sec * 2 ^ q.shift + q.mant) (2 ^ q.shift) = y) :
    sec ≤ y.mant / 2 ^ y.shift ∧ y.mant / 2 ^ y.shift ≤ sec + 1 ∧
      (nsec ≤ 500000000 → y.mant / 2 ^ y.shift = sec) := by
  have hq1 : q.mant ≤ 1 * 2 ^ q.shift := by
    rw [← hq]
    exact toFloat64_le nsec 1000000000 1 (by norm_num) (by omega)
  have hq2 : nsec ≤ 500000000 → 2 * q.mant ≤ (2 * 0 + 1) * 2 ^ q.shift := by
    intro hle
    rw [← hq]
    exact toFloat64_le_half nsec 1000000000 0 (by norm_num) (by omega) (by norm_num; omega)
  have hpow : 0 < 2 ^ q.shift := Nat.two_pow_pos _
  have hpowy : 0 < 2 ^ y.shift := Nat.two_pow_pos _
  have hlow : sec * 2 ^ y.shift ≤ y.mant := by
    rw [← hy]
    exact le_toFloat64 _ _ sec hpow (by omega)
  have hup : y.mant ≤ (sec + 1) * 2 ^ y.shift := by
    rw [← hy]
    apply toFloat64_le _ _ (sec + 1) hpow
    rw [Nat.add_mul]
    omega
  refine ⟨(Nat.le_div_iff_mul_le hpowy).mpr hlow, ?_, ?_⟩
  · apply Nat.div_le_of_le_mul
    rw [Nat.mul_comm]
    exact hup
  · intro hle
    have hhalf : 2 * y.mant ≤ (2 * sec + 1) * 2 ^ y.shift := by
      rw [← hy]
      have hm := hq2 hle
      have e1 : (2 * sec + 1) * 2 ^ q.shift = 2 * (sec * 2 ^ q.shift) + 2 ^ q.shift := by ring
      apply toFloat64_le_half _ _ sec hpow
      · omega
      · have e2 : sec * 2 ^ q.shift < 2 ^ 51 * 2 ^ q.shift :=
          Nat.mul_lt_mul_of_pos_right (by norm_num at hsec ⊢; omega) hpow
        have e3 : 2 ^ 52 * 2 ^ q.shift = 2 * (2 ^ 51 * 2 ^ q.shift) := by ring
        omega
    apply Nat.le_antisymm
    · have hlt : y.mant < (sec + 1) * 2 ^ y.shift := by
        have e4 : (2 * sec + 1) * 2 ^ y.shift = 2 * (sec * 2 ^ y.shift) + 2 ^ y.shift := by ring
        have e5 : (sec + 1) * 2 ^ y.shift = sec * 2 ^ y.shift + 2 ^ y.shift := by ring
        omega
      have := (Nat.div_lt_iff_lt_mul hpowy).mpr hlt
      omega
    · exact (Nat.le_div_iff_mul_le hpowy).mpr hlow

/-- The seconds `int(d.Seconds())` of a 64-bit duration that is not negative
are its whole seconds or one more, and one more only when the fraction is
above half a second. -/
theorem Seconds_toInt (d : Nat) (hd : d < 2 ^ 64) :
    d / 1000000000 ≤ (Seconds d).toInt ∧
      (Seconds d).toInt ≤ d / 1000000000 + 1 ∧
      (d % 1000000000 ≤ 500000000 → (Seconds d).toInt = d / 1000000000) := by
  have hsec : d / 1000000000 < 2 ^ 35 := by
    norm_num at hd ⊢
    omega
  have hnsec : d % 1000000000 < 1000000000 := Nat.mod_lt _ (by norm_num)
  exact sum_toInt (d / 1000000000) (d % 1000000000) hsec hnsec _ _ rfl rfl

/-- The search for the binary scale ends where the scaled value has reached
`2 ^ 52`, unless it runs through all its steps. -/
theorem binaryShift_spec (n d fuel : Nat) :
    ∀ s, binaryShift n d fuel s = s + fuel ∨
      2 ^ 52 * d ≤ n * 2 ^ binaryShift n d fuel s := by
  induction fuel with
  | zero => intro s; exact Or.inl rfl
  | succ fuel ih =>
    intro s
    unfold binaryShift
    split_ifs with h
    · exact Or.inr h
    · rcases ih (s + 1) with h1 | h1
      · exact Or.inl (by omega)
      · exact Or.inr h1

/-- Rounding to the nearest integer stays at or below an integer when the
quotient is less than half above it. -/
theorem roundHalfEven_le_of_lt_half (n d k : Nat) (h : 2 * n < (2 * k + 1) * d) :
    roundHalfEven n d ≤ k := by
  unfold roundHalfEven
  have hdm := Nat.div_add_mod n d
  have e1 : (2 * k + 1) * d = 2 * (d * k) + d := by ring
  have hq : n / d ≤ k := by
    by_contra hc
    have h2 := Nat.mul_le_mul_left d (show k + 1 ≤ n / d by omega)
    have e2 : d * (k + 1) = d * k + d := by ring
    omega
  have hlt : n / d = k → 2 * (n % d) < d := by
    intro hk
    rw [hk] at hdm
    omega
  simp only
  split_ifs <;> omega

/-- Below 2^24 seconds the conversion `int(d.Seconds())` is exact: it gives the
whole seconds of the duration. -/
theorem Seconds_toInt_exact (d : Nat) (hd : d < 2 ^ 24 * 1000000000) :
    (Seconds d).toInt = d / 1000000000 := by
  by_cases hhalf : d % 1000000000 ≤ 500000000
  · exact (Seconds_toInt d (by norm_num at hd ⊢; omega)).2.2 hhalf
  · have hsec : d / 1000000000 < 2 ^ 24 := by
      norm_num at hd ⊢
      omega
    have hnsec : d % 1000000000 < 1000000000 := Nat.mod_lt _ (by norm_num)
    apply Nat.le_antisymm _ (Seconds_toInt d (by norm_num at hd ⊢; omega)).1
    unfold Seconds F64.toInt
    simp only
    generalize d / 1000000000 = sec at *
    generalize d % 1000000000 = nsec at *
    have hform : ∀ n m : Nat, n ≠ 0 → toFloat64 n m =
        ⟨roundHalfEven (n * 2 ^ binaryShift n m 1100 0) m, binaryShift n m 1100 0⟩ := by
      intro n m hn
      simp [toFloat64, hn]
    -- the quotient `float64(nsec)/1e9`
    rw [hform nsec 1000000000 (by omega)]
    simp only
    obtain ⟨s, hs⟩ : ∃ s, binaryShift nsec 1000000000 1100 0 = s := ⟨_, rfl⟩
    have hs34 : 34 ≤ s := by
      rcases binaryShift_spec nsec 1000000000 1100 0 with h | h
      · omega
      · rw [hs] at h
        have h1 : nsec * 2 ^ s < 1000000000 * 2 ^ s :=
          Nat.mul_lt_mul_of_pos_right hnsec (Nat.two_pow_pos s)
        have h2 : 2 ^ 52 < 2 ^ s := by
          have e : 2 ^ 52 * 1000000000 = 1000000000 * 2 ^ 52 := by ring
          have h3 : 1000000000 * 2 ^ 52 < 1000000000 * 2 ^ s := by omega
          exact Nat.lt_of_mul_lt_mul_left h3
        have := (Nat.pow_lt_pow_iff_right (by norm_num : 1 < 2)).mp h2
        omega
    rw [hs]
    obtain ⟨a, rfl⟩ : ∃ a, s = a + 30 := ⟨s - 30, by omega⟩
    have hP : 16 ≤ 2 ^ a := by
      calc 16 = 2 ^ 4 := by norm_num
        _ ≤ 2 ^ a := Nat.pow_le_pow_right (by norm_num) (by omega)
    have hpow : 2 ^ (a + 30) = 2 ^ a * 1073741824 := by rw [pow_add]; norm_num
    rw [hpow]
    generalize 2 ^ a = P at *
    obtain ⟨M, hM⟩ : ∃ M, roundHalfEven (nsec * (P * 1073741824)) 1000000000 = M := ⟨_, rfl⟩
    rw [hM]
    have hMb : M + P + 1 ≤ 1073741824 * P := by
      have h1 : nsec * P ≤ 999999999 * P := Nat.mul_le_mul_right P (by omega)
      have e1 : nsec * (P * 1073741824) = 1073741824 * (nsec * P) := by ring
      have hk := roundHalfEven_le (nsec * (P * 1073741824)) 1000000000
        (1073741824 * P - P - 1) (by norm_num) (by omega)
      rw [hM] at hk
      omega
    -- the sum `float64(sec) + quotient`
    by_cases hn0 : sec * (P * 1073741824) + M = 0
    · rw [hn0]
      simp [toFloat64]
    · rw [hform _ _ hn0]
      simp only
      obtain ⟨t, ht⟩ : ∃ t, binaryShift (sec * (P * 1073741824) + M) (P * 1073741824) 1100 0 = t :=
        ⟨_, rfl⟩
      have hsP : sec * P + P ≤ 16777216 * P := by
        have := Nat.mul_le_mul_right P (show sec + 1 ≤ 16777216 by norm_num at hsec; omega)
        rw [Nat.add_mul] at this
        omega
      have ht29 : 29 ≤ t := by
        rcases binaryShift_spec (sec * (P * 1073741824) + M) (P * 1073741824) 1100 0 with h | h
        · omega
        · rw [ht] at h
          have e1 : sec * (P * 1073741824) = 1073741824 * (sec * P) := by ring
          have h1 : sec * (P * 1073741824) + M < 16777216 * (P * 1073741824) := by omega
          have h2 := Nat.mul_lt_mul_of_pos_right h1 (Nat.two_pow_pos t)
          have e2 : 16777216 * (P * 1073741824) * 2 ^ t = 2 ^ (24 + t) * (P * 1073741824) := by
            rw [pow_add]; ring
          have h3 : 2 ^ 52 * (P * 1073741824) < 2 ^ (24 + t) * (P * 1073741824) := by omega
          have h4 : 2 ^ 52 < 2 ^ (24 + t) := Nat.lt_of_mul_lt_mul_right h3
          have := (Nat.pow_lt_pow_iff_right (by norm_num : 1 < 2)).mp h4
          omega
      rw [ht]
      obtain ⟨j, rfl⟩ : ∃ j, t = j + 29 := ⟨t - 29, by omega⟩
      have hpowt : 2 ^ (j + 29) = 2 ^ j * 536870912 := by rw [pow_add]; norm_num
      have hT : 1 ≤ 2 ^ j := Nat.two_pow_pos j
      rw [hpowt]
      generalize 2 ^ j = T at *
      have hTP : P ≤ P * T := Nat.le_mul_of_pos_right P hT
      have hMT : M * T + P * T + T ≤ 1073741824 * (P * T) := by
        have := Nat.mul_le_mul_right T hMb
        have e3 : (M + P + 1) * T = M * T + P * T + T := by ring
        have e4 : 1073741824 * P * T = 1073741824 * (P * T) := by ring
        omega
      have hK : 1 ≤ (sec + 1) * (T * 536870912) := Nat.mul_pos (by omega) (by omega)
      have hr := roundHalfEven_le_of_lt_half
        ((sec * (P * 1073741824) + M) * (T * 536870912)) (P * 1073741824)
        ((sec + 1) * (T * 536870912) - 1) (by
          have e5 : 2 * ((sec * (P * 1073741824) + M) * (T * 536870912)) =
              1152921504606846976 * (sec * P * T) + 1073741824 * (M * T) := by ring
          have e6 : (2 * ((sec + 1) * (T * 536870912) - 1) + 1) * (P * 1073741824) +
              P * 1073741824 = 2 * ((sec + 1) * (T * 536870912)) * (P * 1073741824) := by
            have : 2 * ((sec + 1) * (T * 536870912) - 1) + 1 + 1 =
                2 * ((sec + 1) * (T * 536870912)) := by omega
            rw [← this]
            ring
          have e7 : 2 * ((sec + 1) * (T * 536870912)) * (P * 1073741824) =
              1152921504606846976 * (sec * P * T) + 1152921504606846976 * (P * T) := by ring
          omega)
      have hlt : roundHalfEven ((sec * (P * 1073741824) + M) * (T * 536870912))
          (P * 1073741824) < (sec + 1) * (T * 536870912) := by omega
      have := (Nat.div_lt_iff_lt_mul (show 0 < T * 536870912 by omega)).mpr hlt
      omega

/-- The values of `Seconds` at some durations, with the bits Go computes: a
half and three halves are exact, fractions of 0.999999999 s are rounded in the
last place, and from 2^24 s on the sum rounds up to the next whole second. -/
theorem Seconds_values :
    Seconds 500000000 = ⟨0x10000000000000, 53⟩ ∧
    Seconds 1500000000 = ⟨0x18000000000000, 52⟩ ∧
    Seconds 3000000000 = ⟨0x18000000000000, 51⟩ ∧
    Seconds 999999999 = ⟨0x1fffffff768fa1, 53⟩ ∧
    Seconds 1999999999 = ⟨0x1fffffffbb47d0, 52⟩ ∧
    Seconds 123456789123456789 = ⟨0x1d6f34547e6b75, 26⟩ ∧
    Seconds 8388608999999999 = ⟨0x1000001fffffff, 29⟩ ∧
    Seconds 16777215999999999 = ⟨0x1fffffffffffff, 29⟩ ∧
    Seconds 16777216999999999 = ⟨0x10000010000000, 28⟩ ∧
    Seconds 9223372036854775807 = ⟨0x112e0be826d695, 19⟩ ∧
    seconds 16777215999999999 = 16777215 ∧
    seconds 16777216999999999 = 16777217 ∧
    seconds (-1999999999) = -1 ∧
    seconds 9223372036854775807 = 9223372036 := by
  decide

/-- The seconds `int(d.Seconds())` of a 64-bit duration: not positive for a
negative duration; for any other the whole seconds or one more, less than
half a second above the duration, and exactly the whole seconds below
2^24 s. -/
theorem seconds_spec (d : Int) (hd : -2 ^ 63 ≤ d ∧ d < 2 ^ 63) :
    (d < 0 → seconds d ≤ 0) ∧
      (0 ≤ d → d / 1000000000 ≤ seconds d ∧ seconds d ≤ d / 1000000000 + 1 ∧
        seconds d * 1000000000 < d + 500000000) ∧
      (0 ≤ d → d < 16777216 * 1000000000 → seconds d = d / 1000000000) := by
  unfold seconds
  refine ⟨?_, ?_, ?_⟩
  · intro h
    rw [if_pos h]
    omega
  · intro h
    rw [if_neg (by omega)]
    obtain ⟨n, rfl⟩ := Int.eq_ofNat_of_zero_le h
    have hn : n < 2 ^ 64 := by
      norm_num at hd ⊢
      omega
    obtain ⟨h1, h2, h3⟩ := Seconds_toInt n hn
    simp only [Int.natAbs_ofNat]
    have hdm := Nat.div_add_mod n 1000000000
    refine ⟨?_, ?_, ?_⟩
    · exact_mod_cast h1
    · exact_mod_cast h2
    · by_cases hle : n % 1000000000 ≤ 500000000
      · rw [h3 hle]
        have : (n / 1000000000 * 1000000000 : Nat) < n + 500000000 := by omega
        exact_mod_cast this
      · have : ((Seconds n).toInt * 1000000000 : Nat) < n + 500000000 := by
          have := Nat.mul_le_mul_right 1000000000 h2
          omega
        exact_mod_cast this
  · intro h hlt
    rw [if_neg (by omega)]
    obtain ⟨n, rfl⟩ := Int.eq_ofNat_of_zero_le h
    simp only [Int.natAbs_ofNat]
    have hn : n < 2 ^ 24 * 1000000000 := by
      norm_num
      omega
    rw [Seconds_toInt_exact n hn]
    omega

/-- C10 (as amended): for every polling interval and every first-sample
timeout (both 64-bit values) the interval of `calcIntervalArg` is
`min(updateEvery, int(timeout.Seconds())) * 1000 - 500` milliseconds when that
minimum exceeds 1 and the default 900 otherwise, where `int(timeout.Seconds())`
is the whole seconds of the timeout when the timeout is below 2^24 s and
otherwise the whole seconds or, when the `float64` sum rounds up, one more,
never half a second or more above the timeout; the interval is at least 900;
it is strictly less than the timeout whenever the timeout is longer than
900 ms, as is the 3 s timeout that `newIntelGpuTopExec` sets. -/
theorem calcIntervalArg_bounds (e : intelGpuTopExec)
    (hu : -2 ^ 63 ≤ e.updateEvery ∧ e.updateEvery < 2 ^ 63)
    (ht : -2 ^ 63 ≤ e.firstSampleTimeout ∧ e.firstSampleTimeout < 2 ^ 63) :
    calcIntervalArg e = toString (interval e) ∧
    interval e =
      (if min e.updateEvery (seconds e.firstSampleTimeout) > 1 then
        min e.updateEvery (seconds e.firstSampleTimeout) * 1000 - 500
      else 900) ∧
    900 ≤ interval e ∧
    (900 * 1000000 < e.firstSampleTimeout →
      interval e * 1000000 < e.firstSampleTimeout) ∧
    (e.firstSampleTimeout = Second * 3 →
      interval e * 1000000 < e.firstSampleTimeout) ∧
    (e.firstSampleTimeout < 0 → seconds e.firstSampleTimeout ≤ 0) ∧
    (0 ≤ e.firstSampleTimeout →
      e.firstSampleTimeout / 1000000000 ≤ seconds e.firstSampleTimeout ∧
        seconds e.firstSampleTimeout ≤ e.firstSampleTimeout / 1000000000 + 1 ∧
        seconds e.firstSampleTimeout * 1000000000 < e.firstSampleTimeout + 500000000) ∧
    (0 ≤ e.firstSampleTimeout → e.firstSampleTimeout < 16777216 * 1000000000 →
      seconds e.firstSampleTimeout = e.firstSampleTimeout / 1000000000) := by
  obtain ⟨hneg, hpos, hexact⟩ := seconds_spec e.firstSampleTimeout ht
  have hform : interval e =
      (if min e.updateEvery (seconds e.firstSampleTimeout) > 1 then
        min e.updateEvery (seconds e.firstSampleTimeout) * 1000 - 500
      else 900) := by
    unfold interval wrapInt
    simp only
    split_ifs with hm
    · have hd : 0 ≤ e.firstSampleTimeout := by
        by_contra hc
        have := hneg (by omega)
        omega
      obtain ⟨h0, h1, h2⟩ := hpos hd
      norm_num at hu ht ⊢
      omega
    · rfl
  have hlow : 900 ≤ interval e := by
    rw [hform]
    split_ifs with hm <;> omega
  have hup : 900 * 1000000 < e.firstSampleTimeout →
      interval e * 1000000 < e.firstSampleTimeout := by
    intro hlong
    rw [hform]
    obtain ⟨h0, h1, h2⟩ := hpos (by omega)
    split_ifs with hm <;> omega
  refine ⟨rfl, hform, hlow, hup, ?_, hneg, hpos, hexact⟩
  intro h3
  apply hup
  rw [h3]
  decide

/-- With the constructor's timeout of 3 s, which `Seconds` converts exactly,
and a polling interval of 5 s the interval is 2500 ms, below the timeout. -/
theorem calcIntervalArg_bounds_witness :
    seconds (Second * 3) = 3 ∧
      interval { running.e with updateEvery := 5 } = 2500 ∧
      interval { running.e with updateEvery := 5 } * 1000000 < Second * 3 :=
  ⟨by decide, by decide,
    (calcIntervalArg_bounds { running.e with updateEvery := 5 } (by decide)
      (by decide)).2.2.2.2.1 rfl⟩

/-- C10 (the claim as written fails): with a first-sample timeout of 500 ms
the interval is the default 900 ms, which is not below the timeout. And for a
timeout of 16777216.999999999 s the `float64` value of `Seconds` rounds up to
16777217, so with a polling interval of 16777217 s the interval is
16777216500 ms and not the 16777215500 ms that the whole seconds of the
timeout would give. -/
theorem interval_not_below_short_timeout :
    (interval { running.e with firstSampleTimeout := 500000000 } = 900 ∧
      ¬ (interval { running.e with firstSampleTimeout := 500000000 } * 1000000 <
        500000000)) ∧
    (seconds 16777216999999999 = 16777217 ∧
      interval { running.e with updateEvery := 16777217,
                                firstSampleTimeout := 16777216999999999 } = 16777216500 ∧
      min (16777217 : Int) (16777216999999999 / 1000000000) * 1000 - 500 = 16777215500) := by
  decide

end intelgpu
